import Mathlib

/-!
Verification of the static control-flow combinator library (cppnow2016):
the branch-selection chain builder (static_if), the fold-style loop
engine (static_for) with its immutable state record, and the
self-reference adapter (y_combinator) that ties the loop recursion.

The C++ source encodes predicates, iteration counters and accumulators
as compile-time constants (type-value encoding, `bool_v` / `sz_v`); the
shallow embedding renders them as ordinary Lean values of type `Bool`,
`Nat`, and an abstract accumulator type.
-/

namespace SCF

/-- A branch chain value.  `impl b` embeds `impl::static_if_impl<b>`, the
open chain whose pending predicate evaluated to `b`; `result f` embeds
`impl::static_if_result<F>`, the resolved chain holding the selected
handler `f`. -/
inductive StaticIf (H : Type) : Type where
  | impl (predicateResult : Bool) : StaticIf H
  | result (f : H) : StaticIf H
deriving DecidableEq

/-- The interface function `static_if(TPredicate)`: returns
`impl::static_if_impl<TPredicate{}>{}`. -/
def static_if {H : Type} (predicate : Bool) : StaticIf H :=
  StaticIf.impl predicate

/-- The `then` member.  `static_if_impl<true>::then(f)` reaches a matching
branch and builds a result via `make_static_if_result(FWD(f))`;
`static_if_impl<false>::then` ignores the handler and returns the same
open chain; `static_if_result::then` ignores everything, a result was
already found. -/
def StaticIf.then_ {H : Type} : StaticIf H → H → StaticIf H
  | StaticIf.impl true, f => StaticIf.result f
  | StaticIf.impl false, _ => StaticIf.impl false
  | StaticIf.result g, _ => StaticIf.result g

/-- The `else_` member.  `static_if_impl<true>::else_` ignores its
argument (the predicate was true); `static_if_impl<false>::else_(f)`
reaches a matching branch and builds a result; `static_if_result::else_`
ignores everything. -/
def StaticIf.else_ {H : Type} : StaticIf H → H → StaticIf H
  | StaticIf.impl true, _ => StaticIf.impl true
  | StaticIf.impl false, f => StaticIf.result f
  | StaticIf.result g, _ => StaticIf.result g

/-- The `else_if` member.  `static_if_impl<true>::else_if` ignores its
predicate; `static_if_impl<false>::else_if(TPredicate)` restarts with
`static_if(TPredicate{})`; `static_if_result::else_if` ignores
everything. -/
def StaticIf.else_if {H : Type} : StaticIf H → Bool → StaticIf H
  | StaticIf.impl true, _ => StaticIf.impl true
  | StaticIf.impl false, p => static_if p
  | StaticIf.result g, _ => StaticIf.result g

/-- The terminal call.  `static_if_result` inherits from the stored
handler, so calling the resolved chain invokes it with the supplied
argument; `static_if_impl<false>::operator()(Ts and&...)` accepts and
discards any arguments and returns void, rendered as `none`.
(`static_if_impl<true>` has no call operator in the source; a completed
chain, which attaches a handler to every predicate, never realizes that
shape, and we render it `none` as well.) -/
def StaticIf.call {A R : Type} : StaticIf (A → R) → A → Option R
  | StaticIf.result f, a => some (f a)
  | StaticIf.impl _, _ => none

/-- Evaluation events for the instrumented chain run: `pred i` records
that predicate number `i` was evaluated (its `TPredicate{}` value
instantiated), `handler i` records that handler number `i` was invoked
by the terminal call. -/
inductive Ev : Type where
  | pred (i : Nat) : Ev
  | handler (i : Nat) : Ev
deriving DecidableEq

/-- Instrumented `else_if` over a chain whose handlers are identified by
number.  The predicate is given as an index `i` into the environment
`env`; the event `Ev.pred i` is recorded exactly where the source
instantiates the predicate, namely in `static_if_impl<false>::else_if`,
which calls `static_if(TPredicate{})`.  The other two receivers ignore
the predicate without evaluating it. -/
def StaticIf.trace_else_if (env : Nat → Bool) :
    StaticIf Nat → Nat → StaticIf Nat × List Ev
  | StaticIf.impl true, _ => (StaticIf.impl true, [])
  | StaticIf.impl false, i => (static_if (env i), [Ev.pred i])
  | StaticIf.result g, _ => (StaticIf.result g, [])

/-- Instrumented terminal call over a chain with numbered handlers:
returns the number of the handler the call invokes (or `none` for the
dummy call operator of `static_if_impl<false>`) together with the
invocation event. -/
def StaticIf.trace_call : StaticIf Nat → Option Nat × List Ev
  | StaticIf.result h => (some h, [Ev.handler h])
  | StaticIf.impl _ => (none, [])

/-- The `else_if(p).then(h)` portion of a chain: each pair
`(predicate number, handler number)` is appended in declaration order. -/
def chain_rest (env : Nat → Bool) :
    StaticIf Nat → List (Nat × Nat) → StaticIf Nat × List Ev
  | c, [] => (c, [])
  | c, q :: rest =>
    let r1 := c.trace_else_if env q.1
    let c2 := r1.1.then_ q.2
    let r3 := chain_rest env c2 rest
    (r3.1, r1.2 ++ r3.2)

/-- A complete instrumented chain evaluation:
`static_if(p0).then(h0).else_if(p1).then(h1). ... [.else_(d)](...)`.
The first predicate is evaluated by the interface call `static_if`
itself; the returned triple is the final chain value, the number of the
handler the terminal call invoked, and the event list. -/
def run_chain (env : Nat → Bool) (first : Nat × Nat)
    (rest : List (Nat × Nat)) (dflt : Option Nat) :
    StaticIf Nat × Option Nat × List Ev :=
  let c0 : StaticIf Nat := static_if (env first.1)
  let e0 : List Ev := [Ev.pred first.1]
  let c1 := c0.then_ first.2
  let r2 := chain_rest env c1 rest
  let c3 := match dflt with
    | none => r2.1
    | some d => r2.1.else_ d
  let rc := c3.trace_call
  (c3, rc.1, e0 ++ r2.2 ++ rc.2)

/-- The next-action tags, `impl::action::a_continue` and
`impl::action::a_break`. -/
inductive Action : Type where
  | a_continue : Action
  | a_break : Action
deriving DecidableEq

/-- `impl::state`: the loop state record carrying the iteration counter,
the accumulator and the next action.  The source encodes all three as
types; the embedding stores their values. -/
structure State (TAcc : Type) where
  iteration : Nat
  accumulator : TAcc
  next_action : Action
deriving DecidableEq

/-- `impl::make_state`. -/
def make_state {TAcc : Type} (i : Nat) (a : TAcc) (na : Action) :
    State TAcc :=
  State.mk i a na

/-- `impl::advance_state`: `make_state(sz_v<s.iteration() + 1>, a, na)`. -/
def advance_state {TAcc : Type} (s : State TAcc) (a : TAcc)
    (na : Action) : State TAcc :=
  make_state (s.iteration + 1) a na

/-- `state::continue_(new_acc)`. -/
def State.continue_ {TAcc : Type} (s : State TAcc) (new_acc : TAcc) :
    State TAcc :=
  advance_state s new_acc Action.a_continue

/-- Zero-argument overload `state::continue_()`: uses the current
accumulator. -/
def State.continue_' {TAcc : Type} (s : State TAcc) : State TAcc :=
  s.continue_ s.accumulator

/-- `state::break_(new_acc)`. -/
def State.break_ {TAcc : Type} (s : State TAcc) (new_acc : TAcc) :
    State TAcc :=
  advance_state s new_acc Action.a_break

/-- Zero-argument overload `state::break_()`: uses the current
accumulator. -/
def State.break_' {TAcc : Type} (s : State TAcc) : State TAcc :=
  s.break_ s.accumulator

/-- The recursive knot of the `step` lambda inside `static_for`, i.e.
`y_combinator(step)` already tied: processing element `x` with the
remaining elements `xs`.  The body computes `next_state`, checks
`must_break || last_iteration`, and either yields the accumulator or
recurses on the tail (the source recurses through the self-reference
`xself(next_state, xs...)`; Lean requires the knot to be tied at
definition time by structural recursion on the list, and the
self-application contract is proved separately against `stepF`). -/
def stepFn {A E : Type} (body : State A → E → State A) :
    State A → E → List E → A
  | state, x, xs =>
    let next_state := body state x
    let last_iteration := xs.isEmpty
    let must_break := decide (next_state.next_action = Action.a_break)
    if must_break || last_iteration then
      next_state.accumulator
    else
      match xs with
      | [] => next_state.accumulator
      | y :: ys => stepFn body next_state y ys

/-- The `step` lambda of `static_for` taken literally, with the
self-reference `self` (the first parameter supplied by the
`y_combinator` adapter) left abstract. -/
def stepF {A E : Type} (body : State A → E → State A)
    (self : State A → E → List E → A) (state : State A) (x : E)
    (xs : List E) : A :=
  let next_state := body state x
  let last_iteration := xs.isEmpty
  let must_break := decide (next_state.next_action = Action.a_break)
  if must_break || last_iteration then
    next_state.accumulator
  else
    match xs with
    | [] => next_state.accumulator
    | y :: ys => self next_state y ys

/-- `static_for(body)`: the curried loop entry point.  An empty argument
pack returns the accumulator unchanged; otherwise the initial state
`make_state(sz_v<0>, accumulator, a_continue{})` is built and
`y_combinator(step)` is applied to it and the elements. -/
def static_for {A E : Type} (body : State A → E → State A) :
    A → List E → A :=
  fun accumulator xs =>
    match xs with
    | [] => accumulator
    | y :: ys =>
      let initial_state := make_state 0 accumulator Action.a_continue
      stepFn body initial_state y ys

/-- Instrumented version of `stepFn` that additionally returns, in
order, every `(state, element)` pair passed to `body`. -/
def step_trace {A E : Type} (body : State A → E → State A) :
    State A → E → List E → A × List (State A × E)
  | state, x, xs =>
    let next_state := body state x
    let last_iteration := xs.isEmpty
    let must_break := decide (next_state.next_action = Action.a_break)
    if must_break || last_iteration then
      (next_state.accumulator, [(state, x)])
    else
      match xs with
      | [] => (next_state.accumulator, [(state, x)])
      | y :: ys =>
        let r := step_trace body next_state y ys
        (r.1, (state, x) :: r.2)

/-- Instrumented version of `static_for`: the final accumulator together
with the list of `(state, element)` pairs passed to `body`, one per
visited element, in visiting order. -/
def static_for_trace {A E : Type} (body : State A → E → State A)
    (a : A) : List E → A × List (State A × E)
  | [] => (a, [])
  | y :: ys =>
    step_trace body (make_state 0 a Action.a_continue) y ys

/-- The example loop body of the talk (p09): add `x` to the accumulator,
break immediately when the sentinel `-999` is encountered (the break
keeps the current accumulator, via the zero-argument overload). -/
def sum_until_sentinel (state : State Int) (x : Int) : State Int :=
  if x = -999 then state.break_'
  else state.continue_ (state.accumulator + x)

/-- Modelled from the spec (section 4.3, testable properties): the left
fold of `body` over the input sequence up to the break point, or over
the full sequence if no break is produced; the empty sequence yields the
current accumulator. -/
def spec_fold_until_break {A E : Type}
    (body : State A → E → State A) : State A → List E → A
  | s, [] => s.accumulator
  | s, x :: xs =>
    let next := body s x
    match next.next_action with
    | Action.a_break => next.accumulator
    | Action.a_continue => spec_fold_until_break body next xs

/-- A chain already resolved to `result h` absorbs every later
`else_if(p).then(h)` pair without producing any event. -/
theorem chain_rest_resolved (env : Nat → Bool) (h : Nat) :
    ∀ rest : List (Nat × Nat),
      chain_rest env (StaticIf.result h) rest = (StaticIf.result h, [])
  | [] => rfl
  | q :: rest => by
    simp [chain_rest, StaticIf.trace_else_if, StaticIf.then_,
      chain_rest_resolved env h rest]

/-- While every predicate evaluates false, the chain stays open and each
predicate of the list is evaluated, in order. -/
theorem chain_rest_all_false (env : Nat → Bool) :
    ∀ rest : List (Nat × Nat), (∀ r ∈ rest, env r.1 = false) →
      chain_rest env (StaticIf.impl false) rest =
        (StaticIf.impl false, rest.map fun r => Ev.pred r.1)
  | [], _ => rfl
  | q :: rest, hf => by
    have hq : env q.1 = false := hf q (List.mem_cons_self q rest)
    have ih := chain_rest_all_false env rest
      (fun r hr => hf r (List.mem_cons_of_mem q hr))
    simp [chain_rest, StaticIf.trace_else_if, hq, static_if,
      StaticIf.then_, ih]

/-- The first true predicate resolves the chain to its handler; the
evaluated predicates are exactly the false prefix plus the matching one,
and the pairs after the match contribute no event at all. -/
theorem chain_rest_first_true (env : Nat → Bool) (q : Nat × Nat)
    (l₂ : List (Nat × Nat)) (htrue : env q.1 = true) :
    ∀ l₁ : List (Nat × Nat), (∀ r ∈ l₁, env r.1 = false) →
      chain_rest env (StaticIf.impl false) (l₁ ++ q :: l₂) =
        (StaticIf.result q.2,
          (l₁.map fun r => Ev.pred r.1) ++ [Ev.pred q.1])
  | [], _ => by
    simp [chain_rest, StaticIf.trace_else_if, htrue, static_if,
      StaticIf.then_, chain_rest_resolved]
  | r :: l₁, hf => by
    have hr : env r.1 = false := hf r (List.mem_cons_self r l₁)
    have ih := chain_rest_first_true env q l₂ htrue l₁
      (fun t ht => hf t (List.mem_cons_of_mem r ht))
    simp [chain_rest, StaticIf.trace_else_if, hr, static_if,
      StaticIf.then_, ih]

/-- Unfolding equation of `stepFn` on the last element. -/
theorem stepFn_nil {A E : Type} (body : State A → E → State A)
    (s : State A) (x : E) :
    stepFn body s x [] = (body s x).accumulator := by
  simp [stepFn]

/-- Unfolding equation of `stepFn` with elements remaining: stop with
the new accumulator on `Break`, otherwise recurse on the tail. -/
theorem stepFn_cons {A E : Type} (body : State A → E → State A)
    (s : State A) (x y : E) (ys : List E) :
    stepFn body s x (y :: ys) =
      if (body s x).next_action = Action.a_break
      then (body s x).accumulator
      else stepFn body (body s x) y ys := by
  by_cases h : (body s x).next_action = Action.a_break <;>
    simp [stepFn, h]

/-- Unfolding equation of `step_trace` on the last element. -/
theorem step_trace_nil {A E : Type} (body : State A → E → State A)
    (s : State A) (x : E) :
    step_trace body s x [] = ((body s x).accumulator, [(s, x)]) := by
  simp [step_trace]

/-- Unfolding equation of `step_trace` with elements remaining. -/
theorem step_trace_cons {A E : Type} (body : State A → E → State A)
    (s : State A) (x y : E) (ys : List E) :
    step_trace body s x (y :: ys) =
      if (body s x).next_action = Action.a_break
      then ((body s x).accumulator, [(s, x)])
      else ((step_trace body (body s x) y ys).1,
        (s, x) :: (step_trace body (body s x) y ys).2) := by
  by_cases h : (body s x).next_action = Action.a_break <;>
    simp [step_trace, h]

/-- Unfolding equation of the spec-side fold on the empty sequence. -/
theorem spec_fold_nil {A E : Type} (body : State A → E → State A)
    (s : State A) :
    spec_fold_until_break body s [] = s.accumulator := rfl

/-- Unfolding equation of the spec-side fold on a nonempty sequence. -/
theorem spec_fold_cons {A E : Type} (body : State A → E → State A)
    (s : State A) (x : E) (xs : List E) :
    spec_fold_until_break body s (x :: xs) =
      if (body s x).next_action = Action.a_break
      then (body s x).accumulator
      else spec_fold_until_break body (body s x) xs := by
  cases h : (body s x).next_action <;>
    simp [spec_fold_until_break, h]

/-- `stepFn` computes the spec-side fold. -/
theorem stepFn_eq_spec {A E : Type} (body : State A → E → State A)
    (xs : List E) (s : State A) (x : E) :
    stepFn body s x xs = spec_fold_until_break body s (x :: xs) := by
  induction xs generalizing s x with
  | nil =>
    rw [stepFn_nil, spec_fold_cons, spec_fold_nil]
    simp
  | cons y ys ih =>
    rw [stepFn_cons, spec_fold_cons]
    by_cases h : (body s x).next_action = Action.a_break <;>
      simp [h, ih]

/-- The instrumented step agrees with the plain step on the returned
accumulator. -/
theorem step_trace_fst {A E : Type} (body : State A → E → State A)
    (xs : List E) (s : State A) (x : E) :
    (step_trace body s x xs).1 = stepFn body s x xs := by
  induction xs generalizing s x with
  | nil => rw [step_trace_nil, stepFn_nil]
  | cons y ys ih =>
    rw [step_trace_cons, stepFn_cons]
    by_cases h : (body s x).next_action = Action.a_break <;>
      simp [h, ih]

/-- The elements passed to `body` form a prefix of the element
sequence, in order. -/
theorem step_trace_snd_prefix {A E : Type}
    (body : State A → E → State A) (xs : List E) (s : State A) (x : E) :
    ((step_trace body s x xs).2.map Prod.snd) <+: x :: xs := by
  induction xs generalizing s x with
  | nil =>
    rw [step_trace_nil]
    simp
  | cons y ys ih =>
    rw [step_trace_cons]
    by_cases h : (body s x).next_action = Action.a_break
    · rw [if_pos h]
      exact ⟨y :: ys, rfl⟩
    · rw [if_neg h]
      obtain ⟨t, ht⟩ := ih (body s x) y
      exact ⟨t, by simp [ht]⟩

/-- If the `body` call of the `k`-th trace entry produces a `Break`
state, that entry is the last one: the trace has length `k + 1`. -/
theorem step_trace_break_last {A E : Type}
    (body : State A → E → State A) (xs : List E) (s : State A) (x : E)
    (k : Nat) (p : State A × E)
    (hp : ((step_trace body s x xs).2).get? k = some p)
    (hbrk : (body p.1 p.2).next_action = Action.a_break) :
    ((step_trace body s x xs).2).length = k + 1 := by
  induction xs generalizing s x k with
  | nil =>
    rw [step_trace_nil] at hp ⊢
    cases k with
    | zero => rfl
    | succ k => simp at hp
  | cons y ys ih =>
    by_cases h : (body s x).next_action = Action.a_break
    · rw [step_trace_cons, if_pos h] at hp ⊢
      cases k with
      | zero => rfl
      | succ k => simp at hp
    · rw [step_trace_cons, if_neg h] at hp ⊢
      cases k with
      | zero =>
        simp at hp
        rw [← hp] at hbrk
        exact absurd hbrk h
      | succ k =>
        simp only [List.get?_cons_succ] at hp
        have := ih (body s x) y k hp
        simp [this]

/-- Every state recorded in the trace, starting from a `Continue`
state, carries the `Continue` action. -/
theorem step_trace_states_continue {A E : Type}
    (body : State A → E → State A) (xs : List E) (s : State A) (x : E)
    (hs : s.next_action = Action.a_continue) (p : State A × E)
    (hp : p ∈ (step_trace body s x xs).2) :
    p.1.next_action = Action.a_continue := by
  induction xs generalizing s x with
  | nil =>
    rw [step_trace_nil] at hp
    simp at hp
    rw [hp]
    exact hs
  | cons y ys ih =>
    by_cases h : (body s x).next_action = Action.a_break
    · rw [step_trace_cons, if_pos h] at hp
      simp at hp
      rw [hp]
      exact hs
    · rw [step_trace_cons, if_neg h] at hp
      simp only [List.mem_cons] at hp
      rcases hp with hp | hp
      · rw [hp]
        exact hs
      · have hc : (body s x).next_action = Action.a_continue := by
          cases hx : (body s x).next_action
          · rfl
          · exact absurd hx h
        exact ih (body s x) y hc hp

/-- If `body` advances the iteration counter by one per call, the state
recorded at position `k` of the trace carries iteration
`s.iteration + k`. -/
theorem step_trace_iteration {A E : Type}
    (body : State A → E → State A)
    (hbody : ∀ (s : State A) (x : E),
      (body s x).iteration = s.iteration + 1)
    (xs : List E) (s : State A) (x : E) (k : Nat) (p : State A × E)
    (hp : ((step_trace body s x xs).2).get? k = some p) :
    p.1.iteration = s.iteration + k := by
  induction xs generalizing s x k with
  | nil =>
    rw [step_trace_nil] at hp
    cases k with
    | zero =>
      simp at hp
      rw [← hp]
      simp
    | succ k => simp at hp
  | cons y ys ih =>
    by_cases h : (body s x).next_action = Action.a_break
    · rw [step_trace_cons, if_pos h] at hp
      cases k with
      | zero =>
        simp at hp
        rw [← hp]
        simp
      | succ k => simp at hp
    · rw [step_trace_cons, if_neg h] at hp
      cases k with
      | zero =>
        simp at hp
        rw [← hp]
        simp
      | succ k =>
        simp only [List.get?_cons_succ] at hp
        have := ih (body s x) y k hp
        rw [this, hbody s x]
        omega

/-- Claim C1: for every branch chain and every terminal call, when some
predicate evaluates true, exactly one handler is invoked — the one
attached to the first true predicate in declaration order.  The
evaluated predicates are exactly the false prefix plus the matching
one; predicates occurring after the chain has resolved are never
evaluated, and no handler attached to a non-matching predicate (nor the
default) is ever invoked. -/
theorem static_if_first_match_wins (env : Nat → Bool)
    (first q : Nat × Nat) (rest l₁ l₂ : List (Nat × Nat))
    (dflt : Option Nat) (hsplit : first :: rest = l₁ ++ q :: l₂)
    (hfalse : ∀ r ∈ l₁, env r.1 = false) (htrue : env q.1 = true) :
    run_chain env first rest dflt =
      (StaticIf.result q.2, some q.2,
        (l₁.map fun r => Ev.pred r.1) ++
          [Ev.pred q.1, Ev.handler q.2]) := by
  cases l₁ with
  | nil =>
    simp only [List.nil_append] at hsplit
    injection hsplit with h1 h2
    subst h1
    subst h2
    cases dflt <;>
      simp [run_chain, static_if, htrue, StaticIf.then_, StaticIf.else_,
        chain_rest_resolved, StaticIf.trace_call]
  | cons r l₁ =>
    simp only [List.cons_append] at hsplit
    injection hsplit with h1 h2
    subst h1
    subst h2
    have hr : env first.1 = false :=
      hfalse first (List.mem_cons_self first l₁)
    have hrest := chain_rest_first_true env q l₂ htrue l₁
      (fun t ht => hfalse t (List.mem_cons_of_mem first ht))
    cases dflt <;>
      simp [run_chain, static_if, hr, StaticIf.then_, StaticIf.else_,
        hrest, StaticIf.trace_call]

/-- Witness for C1: three-branch chain where the second predicate is
the first true one; only the first two predicates are evaluated and
only handler 11 is invoked. -/
theorem static_if_first_match_wins_witness :
    run_chain (fun i => decide (i = 1)) (0, 10) [(1, 11), (2, 12)]
        (some 99) =
      (StaticIf.result 11, some 11,
        [Ev.pred 0, Ev.pred 1, Ev.handler 11]) :=
  static_if_first_match_wins (fun i => decide (i = 1)) (0, 10) (1, 11)
    [(1, 11), (2, 12)] [(0, 10)] [(2, 12)] (some 99) rfl (by decide)
    (by decide)

/-- Claim C5: a chain in which no predicate matched and no default was
supplied evaluates every predicate but invokes no handler; its terminal
call accepts and discards any supplied argument and returns the no
result value. -/
theorem static_if_no_match_no_default (env : Nat → Bool)
    (first : Nat × Nat) (rest : List (Nat × Nat))
    (hfalse : ∀ r ∈ first :: rest, env r.1 = false) :
    run_chain env first rest none =
      (StaticIf.impl false, none,
        (first :: rest).map fun r => Ev.pred r.1) ∧
    ∀ (A R : Type) (arg : A),
      StaticIf.call (StaticIf.impl false : StaticIf (A → R)) arg =
        none := by
  constructor
  · have h1 : env first.1 = false :=
      hfalse first (List.mem_cons_self first rest)
    have hrest := chain_rest_all_false env rest
      (fun r hr => hfalse r (List.mem_cons_of_mem first hr))
    simp [run_chain, static_if, h1, StaticIf.then_, hrest,
      StaticIf.trace_call]
  · intro A R arg
    rfl

/-- Witness for C5: a two-branch chain whose predicates are both false
and which has no default; both predicates are evaluated, no handler is
invoked, and the terminal call discards its argument. -/
theorem static_if_no_match_no_default_witness :
    (run_chain (fun _ => false) (0, 10) [(1, 11)] none =
      (StaticIf.impl false, none, [Ev.pred 0, Ev.pred 1])) ∧
    StaticIf.call (StaticIf.impl false : StaticIf (Nat → Nat)) 7 =
      none :=
  ⟨(static_if_no_match_no_default (fun _ => false) (0, 10) [(1, 11)]
      (by decide)).1,
    (static_if_no_match_no_default (fun _ => false) (0, 10) [(1, 11)]
      (by decide)).2 Nat Nat 7⟩

/-- Claim C6: once a chain has resolved, every later chain-extension
operation (then, else_if, else_) is an identity no-op returning the
same resolved value; malformed compositions (else_ followed by else_if,
or two else_ calls) silently no-op; and the terminal call still invokes
the originally selected handler. -/
theorem static_if_resolved_noop (H A R : Type) (f g : H) (p : Bool)
    (f₀ g₀ : A → R) (a : A) :
    (StaticIf.result f).then_ g = StaticIf.result f ∧
    (StaticIf.result f).else_if p = StaticIf.result f ∧
    (StaticIf.result f).else_ g = StaticIf.result f ∧
    ((static_if (H := H) false).else_ f).else_if p =
      StaticIf.result f ∧
    ((static_if (H := H) false).else_ f).else_ g = StaticIf.result f ∧
    ((((StaticIf.result f₀).then_ g₀).else_if p).else_ g₀).call a =
      some (f₀ a) :=
  ⟨rfl, rfl, rfl, rfl, rfl, rfl⟩

/-- Claim C4: continue_ and break_ build a fresh record with the
iteration advanced by one, the given (or current) accumulator and the
corresponding action; the operations are total, pure and leave the
original record unchanged. -/
theorem state_record_operations (A : Type) (s : State A) (a : A) :
    s.continue_ a = make_state (s.iteration + 1) a Action.a_continue ∧
    s.break_ a = make_state (s.iteration + 1) a Action.a_break ∧
    s.continue_' = s.continue_ s.accumulator ∧
    s.break_' = s.break_ s.accumulator ∧
    (s.continue_ a).iteration = s.iteration + 1 ∧
    (s.continue_ a).accumulator = a ∧
    (s.continue_ a).next_action = Action.a_continue ∧
    (s.break_ a).iteration = s.iteration + 1 ∧
    (s.break_ a).accumulator = a ∧
    (s.break_ a).next_action = Action.a_break :=
  ⟨rfl, rfl, rfl, rfl, rfl, rfl, rfl, rfl, rfl, rfl⟩

/-- Claim C2: the loop engine computes the left fold of the body over
the input sequence up to the break point (or the full sequence if no
break occurs); the empty sequence returns the initial accumulator
unchanged, and the add-unless-sentinel body over (5, 4, 15, 35) from 0
yields 59. -/
theorem static_for_is_fold (A E : Type) (body : State A → E → State A)
    (a : A) (xs : List E) :
    static_for body a xs =
      spec_fold_until_break body (make_state 0 a Action.a_continue)
        xs ∧
    static_for body a ([] : List E) = a ∧
    static_for sum_until_sentinel 0 [5, 4, 15, 35] = 59 := by
  refine ⟨?_, rfl, by decide⟩
  cases xs with
  | nil => rfl
  | cons y ys =>
    exact stepFn_eq_spec body ys (make_state 0 a Action.a_continue) y

/-- Claim C3: elements are visited strictly in sequence order, one body
invocation per visited element (the visited elements form a prefix of
the input sequence); no element after a break-producing one is ever
passed to the body; the trace agrees with the engine result; and on
(5, -999, 15) the add-unless-sentinel body yields 5 with exactly the
elements 5 and -999 visited. -/
theorem static_for_visit_order (A E : Type)
    (body : State A → E → State A) (a : A) (xs : List E) :
    ((static_for_trace body a xs).2.map Prod.snd) <+: xs ∧
    (∀ (k : Nat) (p : State A × E),
      ((static_for_trace body a xs).2).get? k = some p →
      (body p.1 p.2).next_action = Action.a_break →
      ((static_for_trace body a xs).2).length = k + 1) ∧
    (static_for_trace body a xs).1 = static_for body a xs ∧
    (static_for_trace sum_until_sentinel 0 [5, -999, 15]).1 = 5 ∧
    (static_for_trace sum_until_sentinel 0 [5, -999, 15]).2.map
      Prod.snd = [5, -999] := by
  refine ⟨?_, ?_, ?_, by decide, by decide⟩
  · cases xs with
    | nil => simp [static_for_trace]
    | cons y ys => exact step_trace_snd_prefix body ys _ y
  · intro k p hp hb
    cases xs with
    | nil => simp [static_for_trace] at hp
    | cons y ys => exact step_trace_break_last body ys _ y k p hp hb
  · cases xs with
    | nil => rfl
    | cons y ys => exact step_trace_fst body ys _ y

/-- Witness for C3: on (5, -999, 15) the sentinel is visited at
position 1 and produces a break, so the trace stops there: exactly two
body invocations. -/
theorem static_for_visit_order_witness :
    ((static_for_trace sum_until_sentinel 0 [5, -999, 15]).2).length =
      1 + 1 :=
  (static_for_visit_order Int Int sum_until_sentinel 0
    [5, -999, 15]).2.1 1 (make_state 1 5 Action.a_continue, -999)
    (by decide) (by decide)

/-- Claim C7: the self-reference adapter produces, from the step
functional whose first parameter is the reference to itself, a callable
g with g(args...) = f(g, args...); moreover g is the unique such
callable, so the adapter output is exactly the self-application fixed
point of the step functional. -/
theorem y_combinator_self_application (A E : Type)
    (body : State A → E → State A) :
    (∀ (s : State A) (x : E) (xs : List E),
      stepFn body s x xs = stepF body (stepFn body) s x xs) ∧
    ∀ g : State A → E → List E → A,
      (∀ (s : State A) (x : E) (xs : List E),
        g s x xs = stepF body g s x xs) →
      ∀ (s : State A) (x : E) (xs : List E),
        g s x xs = stepFn body s x xs := by
  have hnil : ∀ (g : State A → E → List E → A) (s : State A) (x : E),
      stepF body g s x [] = (body s x).accumulator := by
    intro g s x
    simp [stepF]
  have hcons : ∀ (g : State A → E → List E → A) (s : State A) (x : E)
      (y : E) (ys : List E),
      stepF body g s x (y :: ys) =
        if (body s x).next_action = Action.a_break
        then (body s x).accumulator
        else g (body s x) y ys := by
    intro g s x y ys
    by_cases h : (body s x).next_action = Action.a_break <;>
      simp [stepF, h]
  constructor
  · intro s x xs
    cases xs with
    | nil => rw [stepFn_nil, hnil]
    | cons y ys => rw [stepFn_cons, hcons]
  · intro g hg s x xs
    induction xs generalizing s x with
    | nil => rw [hg, hnil, stepFn_nil]
    | cons y ys ih =>
      rw [hg, hcons, stepFn_cons]
      by_cases h : (body s x).next_action = Action.a_break <;>
        simp [h, ih]

/-- Witness for C7: the self-application equation at the
add-unless-sentinel body on a concrete state and element list. -/
theorem y_combinator_self_application_witness :
    stepFn sum_until_sentinel (make_state 0 0 Action.a_continue) 5
        [4] =
      stepF sum_until_sentinel (stepFn sum_until_sentinel)
        (make_state 0 0 Action.a_continue) 5 [4] :=
  (y_combinator_self_application Int Int sum_until_sentinel).1
    (make_state 0 0 Action.a_continue) 5 [4]

/-- Claim C8: the curried loop entry point is deterministic — two
invocations with the same body, initial accumulator and element
sequence always yield the same final accumulator. -/
theorem static_for_deterministic (A E : Type)
    (body : State A → E → State A) (a : A) (xs : List E) (r₁ r₂ : A)
    (h₁ : r₁ = static_for body a xs) (h₂ : r₂ = static_for body a xs) :
    r₁ = r₂ :=
  h₁.trans h₂.symm

/-- Witness for C8: two runs of the add-unless-sentinel body on
(5, 4, 15, 35) from 0, both equal to 59, coincide. -/
theorem static_for_deterministic_witness :
    ((59 : Int) = static_for sum_until_sentinel 0 [5, 4, 15, 35]) ∧
    (59 : Int) = (59 : Int) :=
  ⟨by decide,
    static_for_deterministic Int Int sum_until_sentinel 0
      [5, 4, 15, 35] 59 59 (by decide) (by decide)⟩

/-- Claim C9: the loop engine never passes a state whose action is
Break to the body — every state recorded in the invocation trace
carries the Continue action. -/
theorem loop_body_sees_continue (A E : Type)
    (body : State A → E → State A) (a : A) (xs : List E)
    (p : State A × E) (hp : p ∈ (static_for_trace body a xs).2) :
    p.1.next_action = Action.a_continue := by
  cases xs with
  | nil => simp [static_for_trace] at hp
  | cons y ys =>
    exact step_trace_states_continue body ys
      (make_state 0 a Action.a_continue) y rfl p hp

/-- Witness for C9: the state passed together with the first element of
(5, -999, 15) carries the Continue action. -/
theorem loop_body_sees_continue_witness :
    ((make_state 0 (0 : Int) Action.a_continue, (5 : Int)) ∈
      (static_for_trace sum_until_sentinel 0 [5, -999, 15]).2) ∧
    (make_state 0 (0 : Int) Action.a_continue,
      (5 : Int)).1.next_action = Action.a_continue :=
  ⟨by decide,
    loop_body_sees_continue Int Int sum_until_sentinel 0 [5, -999, 15]
      (make_state 0 (0 : Int) Action.a_continue, (5 : Int))
      (by decide)⟩

/-- Claim C10: when the body advances the iteration counter by exactly
one per call (as continue_ and break_ do), the state passed to the body
on the k-th visited element carries iteration k: the counter equals the
number of body invocations completed so far. -/
theorem loop_iteration_counts (A E : Type)
    (body : State A → E → State A)
    (hbody : ∀ (s : State A) (x : E),
      (body s x).iteration = s.iteration + 1)
    (a : A) (xs : List E) (k : Nat) (p : State A × E)
    (hp : ((static_for_trace body a xs).2).get? k = some p) :
    p.1.iteration = k := by
  cases xs with
  | nil => simp [static_for_trace] at hp
  | cons y ys =>
    have := step_trace_iteration body hbody ys
      (make_state 0 a Action.a_continue) y k p hp
    simpa [make_state] using this

/-- Witness for C10: the add-unless-sentinel body advances the counter
by one per call, and the state on the second visited element of
(5, -999, 15) carries iteration 1. -/
theorem loop_iteration_counts_witness :
    (∀ (s : State Int) (x : Int),
      (sum_until_sentinel s x).iteration = s.iteration + 1) ∧
    (make_state 1 (5 : Int) Action.a_continue,
      (-999 : Int)).1.iteration = 1 :=
  have hb : ∀ (s : State Int) (x : Int),
      (sum_until_sentinel s x).iteration = s.iteration + 1 := by
    intro s x
    by_cases h : x = -999 <;>
      simp [sum_until_sentinel, h, State.break_', State.break_,
        State.continue_', State.continue_, advance_state, make_state]
  ⟨hb,
    loop_iteration_counts Int Int sum_until_sentinel hb 0 [5, -999, 15]
      1 (make_state 1 (5 : Int) Action.a_continue, (-999 : Int))
      (by decide)⟩

end SCF
